import Mathlib

/-!
Verification of the core of `src/main.py` (Textract expense-report batch
pipeline): the field catalog, the extraction normalizer
(`summarize_textraction`), the report compiler (`compile_report`), the
column pruner (`prettify_report`), the job submitter
(`start_document_analyses`) and the polling loop (`retrieve_analyses`),
shallowly embedded in Lean.

Python `dict`s are embedded as association lists with Python's insertion
semantics: assigning to an existing key updates the entry in place
(keeping its position), assigning to a fresh key appends it at the end.
Pandas `DataFrame`s are embedded as a column list plus one association
list per row, aligned with the columns.
-/

set_option maxRecDepth 10000

namespace TextractStudy

/-- `NORMALIZED_FIELDS` from `src/main.py` (lines 26-75): the fixed, ordered
field catalog defining the output schema. -/
def NORMALIZED_FIELDS : List String :=
  [ "INVOICE_RECEIPT_DATE"
  , "INVOICE_RECEIPT_ID"
  , "TAX_PAYER_ID"
  , "CUSTOMER_NUMBER"
  , "ACCOUNT_NUMBER"
  , "VENDOR_NAME"
  , "RECEIVER_NAME"
  , "VENDOR_ADDRESS"
  , "RECEIVER_ADDRESS"
  , "ORDER_DATE"
  , "DUE_DATE"
  , "DELIVERY_DATE"
  , "PO_NUMBER"
  , "PAYMENT_TERMS"
  , "TOTAL"
  , "AMOUNT_DUE"
  , "AMOUNT_PAID"
  , "SUBTOTAL"
  , "TAX"
  , "SERVICE_CHARGE"
  , "GRATUITY"
  , "PRIOR_BALANCE"
  , "DISCOUNT"
  , "SHIPPING_HANDLING_CHARGE"
  , "VENDOR_ABN_NUMBER"
  , "VENDOR_GST_NUMBER"
  , "VENDOR_PAN_NUMBER"
  , "VENDOR_VAT_NUMBER"
  , "RECEIVER_ABN_NUMBER"
  , "RECEIVER_GST_NUMBER"
  , "RECEIVER_PAN_NUMBER"
  , "RECEIVER_VAT_NUMBER"
  , "VENDOR_PHONE"
  , "RECEIVER_PHONE"
  , "VENDOR_URL"
  , "ITEM"
  , "QUANTITY"
  , "PRICE"
  , "UNIT_PRICE"
  , "PRODUCT_CODE"
  , "ADDRESS"
  , "NAME"
  , "ADDRESS_BLOCK"
  , "STREET"
  , "CITY"
  , "STATE"
  , "COUNTRY"
  , "ZIP_CODE" ]

/-- One field detection of a Textract response: `field["Type"]["Text"]`
and `field["ValueDetection"]["Text"]` (`src/main.py` lines 226-227). -/
structure SummaryField where
  fieldType : String
  valueText : String
deriving DecidableEq

/-- One entry of `response["ExpenseDocuments"]`, carrying its
`"SummaryFields"` list (`src/main.py` lines 220-221). -/
structure ExpenseDocument where
  summaryFields : List SummaryField
deriving DecidableEq

/-- A response of `get_expense_analysis`: its `"JobStatus"` string and its
`"ExpenseDocuments"` payload. `summarize_textraction` only reads the
payload; `retrieve_analyses` only reads the status. -/
structure TextractResponse where
  jobStatus : String
  expenseDocuments : List ExpenseDocument
deriving DecidableEq

/-- A Python `dict` with `String` keys, as an association list in key
insertion order. -/
abbrev Dict (β : Type) := List (String × β)

/-- Python `d[k] = v`: update the entry in place when the key is present
(keeping its position), append the pair otherwise. -/
def dictInsert {β : Type} (d : Dict β) (k : String) (v : β) : Dict β :=
  if d.any (fun p => decide (p.1 = k)) then
    d.map (fun p => if p.1 = k then (k, v) else p)
  else
    d ++ [(k, v)]

/-- Python `d.get(k)`: the value of the first entry with key `k`. -/
def dictLookup {β : Type} (d : Dict β) (k : String) : Option β :=
  (d.find? (fun p => decide (p.1 = k))).map (fun p => p.2)

/-- The keys of a dict, in order. -/
def dictKeys {β : Type} (d : Dict β) : List String :=
  d.map (fun p => p.1)

/-- `src/main.py` lines 219-221: pool the `SummaryFields` of every expense
document of the response into one list. -/
def summary_fields (r : TextractResponse) : List SummaryField :=
  (r.expenseDocuments.map (fun d => d.summaryFields)).flatten

/-- `src/main.py` lines 223-230: the loop body of `summarize_textraction`,
folding the pooled detections into the output dict, keeping a detection
only when its type label is in the catalog. -/
def summarize_fields (fields : List SummaryField) (output : Dict String) : Dict String :=
  fields.foldl
    (fun output field =>
      if field.fieldType ∈ NORMALIZED_FIELDS then
        dictInsert output field.fieldType field.valueText
      else output)
    output

/-- `summarize_textraction` (`src/main.py` lines 212-233): pool all
detections of all expense documents, then fold them into a dict keyed by
canonical field, later detections overwriting earlier ones. -/
def summarize_textraction (r : TextractResponse) : Dict String :=
  summarize_fields (summary_fields r) []

/-- A pandas `DataFrame`: column labels plus one association list per row,
each row aligned with the columns. -/
structure DataFrame where
  cols : List String
  rows : List (Dict (Option String))
deriving DecidableEq

/-- The value of row `row` at column `c`: the stored optional value when
the column is present, `none` (NaN) otherwise. -/
def rowLookup (row : Dict (Option String)) (c : String) : Option String :=
  match dictLookup row c with
  | some v => v
  | none => none

/-- Python `d.update(u)` for a row dict (`src/main.py` line 251). -/
def dictUpdate (d : Dict (Option String)) (u : Dict String) : Dict (Option String) :=
  u.foldl (fun d p => dictInsert d p.1 (some p.2)) d

/-- `src/main.py` lines 250-251: the fresh row dict — every catalog field
mapped to `None` — updated with the summarized response. -/
def new_row_dict (r : TextractResponse) : Dict (Option String) :=
  dictUpdate (NORMALIZED_FIELDS.map (fun field => (field, (none : Option String))))
    (summarize_textraction r)

/-- Column labels of `pd.concat`: the first frame's columns followed by
the columns only the second frame has. -/
def concatCols (cols1 cols2 : List String) : List String :=
  cols1 ++ cols2.filter (fun c => decide (c ∉ cols1))

/-- `pd.concat([report, new_row_df], ignore_index=True)` for a one-row
second frame (`src/main.py` lines 252-253): unite the column lists and
align every row with them, filling missing columns with NaN. -/
def dfAppendRow (df : DataFrame) (row : Dict (Option String)) : DataFrame :=
  let cols := concatCols df.cols (dictKeys row)
  { cols := cols
  , rows := df.rows.map (fun r => cols.map (fun c => (c, rowLookup r c)))
      ++ [cols.map (fun c => (c, rowLookup row c))] }

/-- `compile_report` (`src/main.py` lines 236-258): start from an empty
frame with the catalog columns, then append one summarized row per
response by whole-table concatenation. -/
def compile_report (textract_responses : List TextractResponse) : DataFrame :=
  textract_responses.foldl (fun report r => dfAppendRow report (new_row_dict r))
    { cols := NORMALIZED_FIELDS, rows := [] }

/-- `prettify_report` (`src/main.py` lines 302-314):
`report.dropna(axis=1, how="all")` — drop every column whose value is
NaN/None in all rows, keeping row order and the order of the remaining
columns. -/
def prettify_report (report : DataFrame) : DataFrame :=
  let keep := report.cols.filter (fun c => report.rows.any (fun row => (rowLookup row c).isSome))
  { cols := keep
  , rows := report.rows.map (fun row => row.filter (fun p => decide (p.1 ∈ keep))) }

/-- The polling environment: what `get_expense_analysis` answers the
`n`-th time job `j` is polled (the service's evolving state, indexed by
per-job poll count). -/
abbrev Env := String → Nat → TextractResponse

/-- The `"JobStatus"` of the `n`-th poll of job `j`. -/
def statusOf (env : Env) (j : String) (n : Nat) : String :=
  (env j n).jobStatus

/-- The state of the `while job_ids:` loop of `retrieve_analyses`
(`src/main.py` lines 270-296): the Python `job_ids` list (each job paired
with how many times it has already been polled) and the `responses`
accumulator. `job_ids.pop()` removes the LAST element and
`job_ids.append` re-inserts at the end. -/
structure PollState where
  pending : List (String × Nat)
  responses : List TextractResponse
deriving DecidableEq

/-- One iteration of the `while job_ids:` loop of `retrieve_analyses`
(`src/main.py` lines 274-296): pop the last job, poll it, and dispatch on
the status exactly as the `match` statement does. -/
def retrieve_analyses_step (env : Env) (s : PollState) : PollState :=
  match s.pending.getLast? with
  | none => s
  | some (job_id, k) =>
    let rest := s.pending.dropLast
    let response := env job_id k
    if response.jobStatus = "SUCCEEDED" then
      { pending := rest, responses := s.responses ++ [response] }
    else if response.jobStatus = "IN_PROGRESS" then
      { pending := rest ++ [(job_id, k + 1)], responses := s.responses }
    else if response.jobStatus = "FAILED" then
      { pending := rest, responses := s.responses }
    else if response.jobStatus = "PARTIAL_SUCCESS" then
      { pending := rest, responses := s.responses ++ [response] }
    else
      { pending := rest, responses := s.responses }

/-- `n` iterations of the polling loop. -/
def retrieve_analyses_steps (env : Env) (n : Nat) (s : PollState) : PollState :=
  match n with
  | 0 => s
  | n + 1 => retrieve_analyses_steps env n (retrieve_analyses_step env s)

/-- The loop state at entry of `retrieve_analyses`: every job still to be
polled for the first time, nothing collected yet. -/
def initState (job_ids : List String) : PollState :=
  { pending := job_ids.map (fun j => (j, 0)), responses := [] }

/-- What one job contributes to `responses` when its poll at index `t` is
terminal: the full response for `SUCCEEDED` and `PARTIAL_SUCCESS`, nothing
for `FAILED` or an unrecognized status. -/
def jobContribution (env : Env) (j : String) (t : Nat) : List TextractResponse :=
  if statusOf env j t = "SUCCEEDED" ∨ statusOf env j t = "PARTIAL_SUCCESS" then
    [env j t]
  else []

/-- `start_document_analyses` (`src/main.py` lines 164-178), with the
service's `start_expense_analysis` call abstracted as `jobIdOf`: one job
id per key, in key order, then the list is reversed — so that, combined
with the pop-from-the-end polling loop, the first-submitted job is polled
first. -/
def start_document_analyses (jobIdOf : String → String) (keys : List String) : List String :=
  (keys.map jobIdOf).reverse

/-- Scenario response of job A: `SUCCEEDED` with `{TOTAL: "12.50"}`. -/
def respA : TextractResponse :=
  ⟨"SUCCEEDED", [⟨[⟨"TOTAL", "12.50"⟩]⟩]⟩

/-- Scenario response of job B while still running. -/
def respBpending : TextractResponse :=
  ⟨"IN_PROGRESS", []⟩

/-- Scenario response of job B at its second poll: `FAILED`. -/
def respBfailed : TextractResponse :=
  ⟨"FAILED", []⟩

/-- Scenario response of job C: `PARTIAL_SUCCESS` with
`{TOTAL: "7.00", VENDOR_NAME: "Acme"}`. -/
def respC : TextractResponse :=
  ⟨"PARTIAL_SUCCESS", [⟨[⟨"TOTAL", "7.00"⟩, ⟨"VENDOR_NAME", "Acme"⟩]⟩]⟩

/-- The three-document scenario of §8 of the spec: job "A" succeeds on its
first poll, job "B" is in progress once and then fails, job "C" reports
PARTIAL_SUCCESS on its first poll. -/
def scenarioEnv : Env := fun j n =>
  if j = "A" then respA
  else if j = "B" then (if n = 0 then respBpending else respBfailed)
  else respC

/-- An environment whose job "A" reports `IN_PROGRESS` on its first two
polls and then succeeds, job "B" fails at once, and every other job
reports an unrecognized status at once. -/
def requeueEnv : Env := fun j n =>
  if j = "A" then (if n < 2 then respBpending else respA)
  else if j = "B" then respBfailed
  else ⟨"SOMETHING_ELSE", []⟩

/-- An environment where every job is terminal on its very first poll:
job "A" succeeds, every other job reports PARTIAL_SUCCESS. -/
def firstPollEnv : Env := fun j _ =>
  if j = "A" then respA else respC

/-- A response with two expense documents, each detecting `TOTAL`, so the
same canonical field is seen twice across sub-documents. -/
def respDup : TextractResponse :=
  ⟨"SUCCEEDED", [⟨[⟨"TOTAL", "1.00"⟩]⟩, ⟨[⟨"TOTAL", "2.00"⟩]⟩]⟩

/-! ### Dictionary lemmas -/

lemma dictLookup_cons {β : Type} (p : String × β) (d : Dict β) (k : String) :
    dictLookup (p :: d) k = if p.1 = k then some p.2 else dictLookup d k := by
  by_cases h : p.1 = k
  · simp [dictLookup, List.find?_cons_of_pos, h]
  · simp [dictLookup, List.find?_cons_of_neg, h]

lemma lookup_replace_self {β : Type} (d : Dict β) (k : String) (v : β) :
    dictLookup (d.map (fun p => if p.1 = k then (k, v) else p)) k
      = (dictLookup d k).map (fun _ => v) := by
  induction d with
  | nil => rfl
  | cons p d ih =>
    by_cases h : p.1 = k
    · simp [List.map_cons, dictLookup_cons, h]
    · simp only [List.map_cons, dictLookup_cons, if_neg h, ih]

lemma lookup_replace_other {β : Type} (d : Dict β) (k k' : String) (v : β) (h : k' ≠ k) :
    dictLookup (d.map (fun p => if p.1 = k then (k, v) else p)) k' = dictLookup d k' := by
  induction d with
  | nil => rfl
  | cons p d ih =>
    by_cases hp : p.1 = k
    · have hkk : ¬ (k = k') := fun e => h e.symm
      simp only [List.map_cons, if_pos hp, dictLookup_cons, if_neg hkk, ih]
      rw [if_neg (fun e : p.1 = k' => hkk (hp ▸ e))]
    · simp only [List.map_cons, if_neg hp, dictLookup_cons, ih]

lemma dictLookup_dictInsert {β : Type} (d : Dict β) (k k' : String) (v : β) :
    dictLookup (dictInsert d k v) k' = if k' = k then some v else dictLookup d k' := by
  unfold dictInsert
  by_cases hany : d.any (fun p => decide (p.1 = k)) = true
  · rw [if_pos hany]
    by_cases hk : k' = k
    · subst hk
      rw [lookup_replace_self, if_pos rfl]
      obtain ⟨p, hp, hpk⟩ := List.any_eq_true.mp hany
      have : (d.find? (fun p => decide (p.1 = k'))).isSome := by
        rw [List.find?_isSome]
        exact ⟨p, hp, hpk⟩
      rcases ho : d.find? (fun p => decide (p.1 = k')) with _ | q
      · rw [ho] at this; simp at this
      · simp [dictLookup, ho]
    · rw [lookup_replace_other _ _ _ _ hk, if_neg hk]
  · rw [if_neg hany]
    have hnone : d.find? (fun p => decide (p.1 = k)) = none := by
      rw [List.find?_eq_none]
      intro x hx hxk
      exact hany (List.any_eq_true.mpr ⟨x, hx, hxk⟩)
    by_cases hk : k' = k
    · subst hk
      simp [dictLookup, List.find?_append, hnone]
    · have : ¬ ((k, v).1 = k') := fun e => hk e.symm
      rw [if_neg hk]
      simp [dictLookup, List.find?_append, this]

lemma mem_dictInsert {β : Type} (d : Dict β) (k : String) (v : β) (p : String × β)
    (hp : p ∈ dictInsert d k v) : p.1 = k ∨ p ∈ d := by
  unfold dictInsert at hp
  by_cases hany : d.any (fun q => decide (q.1 = k)) = true
  · rw [if_pos hany] at hp
    obtain ⟨q, hq, hqe⟩ := List.mem_map.mp hp
    by_cases hqk : q.1 = k
    · rw [if_pos hqk] at hqe
      exact Or.inl (by rw [← hqe])
    · rw [if_neg hqk] at hqe
      exact Or.inr (hqe ▸ hq)
  · rw [if_neg hany] at hp
    rcases List.mem_append.mp hp with h | h
    · exact Or.inr h
    · have := List.mem_singleton.mp h
      exact Or.inl (by rw [this])

/-! ### Lemmas about the extraction normalizer -/

lemma summarize_fields_cons (fd : SummaryField) (rest : List SummaryField) (d : Dict String) :
    summarize_fields (fd :: rest) d
      = summarize_fields rest
          (if fd.fieldType ∈ NORMALIZED_FIELDS then
            dictInsert d fd.fieldType fd.valueText
          else d) := rfl

lemma summarize_fields_concat (l : List SummaryField) (fd : SummaryField) (d : Dict String) :
    summarize_fields (l ++ [fd]) d
      = (if fd.fieldType ∈ NORMALIZED_FIELDS then
          dictInsert (summarize_fields l d) fd.fieldType fd.valueText
        else summarize_fields l d) := by
  simp [summarize_fields, List.foldl_append]

lemma summarize_fields_mem (fields : List SummaryField) :
    ∀ (d : Dict String) (p : String × String), p ∈ summarize_fields fields d →
      p.1 ∈ NORMALIZED_FIELDS ∨ p ∈ d := by
  induction fields with
  | nil => exact fun d p hp => Or.inr hp
  | cons fd rest ih =>
    intro d p hp
    rw [summarize_fields_cons] at hp
    rcases ih _ p hp with h | h
    · exact Or.inl h
    · by_cases hmem : fd.fieldType ∈ NORMALIZED_FIELDS
      · rw [if_pos hmem] at h
        rcases mem_dictInsert _ _ _ _ h with h1 | h1
        · exact Or.inl (h1 ▸ hmem)
        · exact Or.inr h1
      · rw [if_neg hmem] at h
        exact Or.inr h

lemma dictLookup_summarize_fields (fields : List SummaryField) :
    ∀ (d : Dict String) (f : String),
      dictLookup (summarize_fields fields d) f =
        match (fields.filter (fun fd =>
            decide (fd.fieldType = f) && decide (fd.fieldType ∈ NORMALIZED_FIELDS))).getLast? with
        | some fd => some fd.valueText
        | none => dictLookup d f := by
  induction fields using List.reverseRecOn with
  | nil => intro d f; rfl
  | append_singleton l fd ih =>
    intro d f
    rw [summarize_fields_concat, List.filter_append]
    by_cases hmem : fd.fieldType ∈ NORMALIZED_FIELDS
    · by_cases hf : fd.fieldType = f
      · rw [if_pos hmem]
        have hmem' : f ∈ NORMALIZED_FIELDS := hf ▸ hmem
        have hfil : List.filter (fun fd =>
            decide (fd.fieldType = f) && decide (fd.fieldType ∈ NORMALIZED_FIELDS)) [fd] = [fd] := by
          simp [hf, hmem']
        rw [hfil, List.getLast?_concat, dictLookup_dictInsert]
        rw [if_pos hf.symm]
      · rw [if_pos hmem]
        have hfil : List.filter (fun fd =>
            decide (fd.fieldType = f) && decide (fd.fieldType ∈ NORMALIZED_FIELDS)) [fd] = [] := by
          simp [hf]
        rw [hfil, List.append_nil, dictLookup_dictInsert, if_neg (fun e : f = fd.fieldType => hf e.symm)]
        exact ih d f
    · rw [if_neg hmem]
      have hfil : List.filter (fun fd =>
          decide (fd.fieldType = f) && decide (fd.fieldType ∈ NORMALIZED_FIELDS)) [fd] = [] := by
        simp [hmem]
      rw [hfil, List.append_nil]
      exact ih d f

lemma dictLookup_summarize_textraction (r : TextractResponse) (f : String) :
    dictLookup (summarize_textraction r) f =
      ((summary_fields r).filter (fun fd =>
          decide (fd.fieldType = f) && decide (fd.fieldType ∈ NORMALIZED_FIELDS))).getLast?.map
        (fun fd => fd.valueText) := by
  rw [summarize_textraction, dictLookup_summarize_fields]
  rcases h : ((summary_fields r).filter (fun fd =>
      decide (fd.fieldType = f) && decide (fd.fieldType ∈ NORMALIZED_FIELDS))).getLast? with _ | fd
  · simp [h, dictLookup]
  · simp [h]

/-- Claim C5: every key of the mapping returned by `summarize_textraction`
is a member of the field catalog `NORMALIZED_FIELDS`; detections whose
field-type label is not in the catalog are discarded (they never enter the
output dict). -/
theorem summarize_textraction_keys_in_catalog (r : TextractResponse) (p : String × String)
    (hp : p ∈ summarize_textraction r) : p.1 ∈ NORMALIZED_FIELDS := by
  rcases summarize_fields_mem (summary_fields r) [] p hp with h | h
  · exact h
  · simp at h

/-- Witness for C5: the summarized `respA` contains the entry
`("TOTAL", "12.50")`, and indeed `TOTAL` is a catalog field. -/
theorem summarize_textraction_keys_in_catalog_witness :
    ("TOTAL", "12.50") ∈ summarize_textraction respA ∧ "TOTAL" ∈ NORMALIZED_FIELDS :=
  ⟨by decide, summarize_textraction_keys_in_catalog respA ("TOTAL", "12.50") (by decide)⟩

/-- Claim C3: when a raw result's pooled detections contain, for a
canonical field `f` of the catalog, exactly the two detections with texts
`A` then `B` (in iteration order), `summarize_textraction` maps `f` to
`B`: the later detection overwrites the earlier one. -/
theorem summarize_textraction_last_wins (r : TextractResponse) (f A B : String)
    (hf : f ∈ NORMALIZED_FIELDS)
    (hfilter : (summary_fields r).filter (fun fd => decide (fd.fieldType = f))
      = [⟨f, A⟩, ⟨f, B⟩]) :
    dictLookup (summarize_textraction r) f = some B := by
  rw [dictLookup_summarize_textraction]
  have hcongr : (summary_fields r).filter (fun fd =>
      decide (fd.fieldType = f) && decide (fd.fieldType ∈ NORMALIZED_FIELDS))
      = (summary_fields r).filter (fun fd => decide (fd.fieldType = f)) := by
    apply List.filter_congr
    intro fd _
    by_cases h : fd.fieldType = f
    · simp [h, hf]
    · simp [h]
  rw [hcongr, hfilter]
  rfl

/-- Witness for C3: `respDup` detects `TOTAL` as "1.00" then "2.00", and
the summary maps `TOTAL` to "2.00". -/
theorem summarize_textraction_last_wins_witness :
    ("TOTAL" ∈ NORMALIZED_FIELDS ∧
      (summary_fields respDup).filter (fun fd => decide (fd.fieldType = "TOTAL"))
        = [⟨"TOTAL", "1.00"⟩, ⟨"TOTAL", "2.00"⟩]) ∧
      dictLookup (summarize_textraction respDup) "TOTAL" = some "2.00" :=
  ⟨⟨by decide, by decide⟩,
    summarize_textraction_last_wins respDup "TOTAL" "1.00" "2.00" (by decide) (by decide)⟩

/-- Claim C4: `summarize_textraction` pools the detections of all expense
documents of a response before filtering — a canonical field ends up in
the output mapping exactly when SOME sub-document (not only the first)
carries a detection with that label. -/
theorem summarize_textraction_pools_all_documents (r : TextractResponse) (f : String) :
    (dictLookup (summarize_textraction r) f).isSome = true ↔
      f ∈ NORMALIZED_FIELDS ∧
        ∃ doc ∈ r.expenseDocuments, ∃ fd ∈ doc.summaryFields, fd.fieldType = f := by
  rw [dictLookup_summarize_textraction]
  rw [Option.isSome_map']
  constructor
  · intro h
    rw [List.getLast?_isSome] at h
    obtain ⟨fd, hfd⟩ := List.exists_mem_of_ne_nil _ h
    obtain ⟨hmem, hpred⟩ := List.mem_filter.mp hfd
    simp only [Bool.and_eq_true, decide_eq_true_eq] at hpred
    obtain ⟨hft, hcat⟩ := hpred
    refine ⟨hft ▸ hcat, ?_⟩
    obtain ⟨l, hl, hfl⟩ := List.mem_flatten.mp hmem
    obtain ⟨doc, hdoc, hde⟩ := List.mem_map.mp hl
    exact ⟨doc, hdoc, fd, hde ▸ hfl, hft⟩
  · rintro ⟨hcat, doc, hdoc, fd, hfd, hft⟩
    rw [List.getLast?_isSome]
    apply List.ne_nil_of_mem (a := fd)
    refine List.mem_filter.mpr ⟨?_, by simp [hft, hcat]⟩
    exact List.mem_flatten.mpr ⟨doc.summaryFields, List.mem_map_of_mem _ hdoc, hfd⟩

/-! ### Lemmas about map-form dictionaries (rows aligned with a key list) -/

lemma dataFrame_eq (a b : DataFrame) (h1 : a.cols = b.cols) (h2 : a.rows = b.rows) : a = b := by
  cases a; cases b; simp_all

lemma dictLookup_map_form {β : Type} (ks : List String) (g : String → β) (c : String)
    (hc : c ∈ ks) : dictLookup (ks.map (fun f => (f, g f))) c = some (g c) := by
  induction ks with
  | nil => cases hc
  | cons k ks ih =>
    rw [List.map_cons, dictLookup_cons]
    by_cases h : k = c
    · rw [if_pos h, h]
    · rw [if_neg h]
      exact ih ((List.mem_cons.mp hc).resolve_left (fun e => h e.symm))

lemma dictKeys_map_form {β : Type} (ks : List String) (g : String → β) :
    dictKeys (ks.map (fun f => (f, g f))) = ks := by
  unfold dictKeys
  rw [List.map_map]
  exact List.map_id'' (fun x => rfl) ks

lemma dictInsert_map_form {β : Type} (ks : List String) (g : String → β) (k : String) (v : β)
    (hk : k ∈ ks) :
    dictInsert (ks.map (fun f => (f, g f))) k v
      = ks.map (fun f => (f, if f = k then v else g f)) := by
  unfold dictInsert
  have hany : (ks.map (fun f => (f, g f))).any (fun p => decide (p.1 = k)) = true := by
    rw [List.any_eq_true]
    exact ⟨(k, g k), List.mem_map_of_mem _ hk, by simp⟩
  rw [if_pos hany, List.map_map]
  apply List.map_congr_left
  intro f _
  by_cases h : f = k
  · simp [Function.comp, h]
  · simp [Function.comp, h]

lemma dictUpdate_map_form (u : Dict String) :
    ∀ (ks : List String) (g : String → Option String),
      (∀ p ∈ u, p.1 ∈ ks) →
      dictUpdate (ks.map (fun f => (f, g f))) u
        = ks.map (fun f => (f,
            match (u.filter (fun p => decide (p.1 = f))).getLast? with
            | some p => some p.2
            | none => g f)) := by
  induction u using List.reverseRecOn with
  | nil =>
    intro ks g _
    apply List.map_congr_left
    intro f _
    rfl
  | append_singleton u p ih =>
    intro ks g hu
    have hu' : ∀ q ∈ u, q.1 ∈ ks := fun q hq => hu q (List.mem_append_left _ hq)
    have hp : p.1 ∈ ks := hu p (List.mem_append_right _ (List.mem_singleton.mpr rfl))
    have hsplit : dictUpdate (ks.map (fun f => (f, g f))) (u ++ [p])
        = dictInsert (dictUpdate (ks.map (fun f => (f, g f))) u) p.1 (some p.2) := by
      simp [dictUpdate, List.foldl_append]
    rw [hsplit, ih ks g hu', dictInsert_map_form _ _ _ _ hp]
    apply List.map_congr_left
    intro f _
    rw [List.filter_append]
    by_cases h : f = p.1
    · have : List.filter (fun q => decide (q.1 = f)) [p] = [p] := by simp [h.symm]
      rw [this, List.getLast?_concat, if_pos h]
    · have hpf : ¬ p.1 = f := fun e => h e.symm
      have : List.filter (fun q => decide (q.1 = f)) [p] = [] := by simp [hpf]
      rw [this, List.append_nil, if_neg h]

lemma filter_eq_nil_of_keys_not_mem {β : Type} (u : Dict β) (f : String)
    (h : f ∉ dictKeys u) : u.filter (fun p => decide (p.1 = f)) = [] := by
  rw [List.filter_eq_nil_iff]
  intro p hp
  simp only [decide_eq_true_eq]
  intro e
  exact h (e ▸ List.mem_map_of_mem _ hp)

lemma getLast?_filter_of_nodup_keys {β : Type} (u : Dict β) (f : String)
    (hnd : (dictKeys u).Nodup) :
    (u.filter (fun p => decide (p.1 = f))).getLast? = u.find? (fun p => decide (p.1 = f)) := by
  induction u with
  | nil => rfl
  | cons p u ih =>
    rw [dictKeys, List.map_cons, List.nodup_cons] at hnd
    obtain ⟨hnm, hnd'⟩ := hnd
    by_cases h : p.1 = f
    · rw [List.filter_cons_of_pos (by simp [h]), List.find?_cons_of_pos _ (by simp [h])]
      rw [filter_eq_nil_of_keys_not_mem u f (h ▸ hnm)]
      rfl
    · rw [List.filter_cons_of_neg (by simp [h]), List.find?_cons_of_neg _ (by simp [h])]
      exact ih hnd'

lemma dictKeys_dictInsert {β : Type} (d : Dict β) (k : String) (v : β) :
    dictKeys (dictInsert d k v)
      = if d.any (fun p => decide (p.1 = k)) = true then dictKeys d else dictKeys d ++ [k] := by
  unfold dictInsert
  by_cases hany : d.any (fun p => decide (p.1 = k)) = true
  · rw [if_pos hany, if_pos hany, dictKeys, List.map_map]
    apply List.map_congr_left
    intro p _
    by_cases h : p.1 = k
    · simp [Function.comp, h]
    · simp [Function.comp, h]
  · rw [if_neg hany, if_neg hany, dictKeys, List.map_append]
    rfl

lemma nodup_keys_dictInsert {β : Type} (d : Dict β) (k : String) (v : β)
    (hnd : (dictKeys d).Nodup) : (dictKeys (dictInsert d k v)).Nodup := by
  rw [dictKeys_dictInsert]
  by_cases hany : d.any (fun p => decide (p.1 = k)) = true
  · rw [if_pos hany]; exact hnd
  · rw [if_neg hany]
    have hk : k ∉ dictKeys d := by
      intro hmem
      obtain ⟨p, hp, hpk⟩ := List.mem_map.mp hmem
      exact hany (List.any_eq_true.mpr ⟨p, hp, by simp [hpk]⟩)
    simp [List.nodup_append, hnd, hk]

lemma summarize_fields_keys_nodup (fields : List SummaryField) :
    ∀ d : Dict String, (dictKeys d).Nodup → (dictKeys (summarize_fields fields d)).Nodup := by
  induction fields with
  | nil => exact fun d h => h
  | cons fd rest ih =>
    intro d hd
    rw [summarize_fields_cons]
    apply ih
    by_cases hmem : fd.fieldType ∈ NORMALIZED_FIELDS
    · rw [if_pos hmem]; exact nodup_keys_dictInsert _ _ _ hd
    · rw [if_neg hmem]; exact hd

lemma summarize_textraction_keys_nodup (r : TextractResponse) :
    (dictKeys (summarize_textraction r)).Nodup :=
  summarize_fields_keys_nodup (summary_fields r) [] List.nodup_nil

/-! ### Lemmas about the report compiler -/

lemma new_row_dict_eq (r : TextractResponse) :
    new_row_dict r
      = NORMALIZED_FIELDS.map (fun f => (f, dictLookup (summarize_textraction r) f)) := by
  unfold new_row_dict
  have hu : ∀ p ∈ summarize_textraction r, p.1 ∈ NORMALIZED_FIELDS := by
    intro p hp
    rcases summarize_fields_mem (summary_fields r) [] p hp with h | h
    · exact h
    · simp at h
  rw [dictUpdate_map_form _ _ _ hu]
  apply List.map_congr_left
  intro f _
  rw [getLast?_filter_of_nodup_keys _ _ (summarize_textraction_keys_nodup r)]
  rcases h : (summarize_textraction r).find? (fun p => decide (p.1 = f)) with _ | p
  · simp [dictLookup, h]
  · simp [dictLookup, h]

lemma rowLookup_map_form (ks : List String) (g : String → Option String) (c : String)
    (hc : c ∈ ks) : rowLookup (ks.map (fun f => (f, g f))) c = g c := by
  rw [rowLookup, dictLookup_map_form _ _ _ hc]

lemma concatCols_self_of_subset (cols1 cols2 : List String) (h : ∀ c ∈ cols2, c ∈ cols1) :
    concatCols cols1 cols2 = cols1 := by
  unfold concatCols
  have : cols2.filter (fun c => decide (c ∉ cols1)) = [] := by
    rw [List.filter_eq_nil_iff]
    intro c hc
    simp [h c hc]
  rw [this, List.append_nil]

lemma dfAppendRow_aligned (rows0 : List (Dict (Option String)))
    (h0 : ∀ row ∈ rows0, ∃ v : String → Option String,
      row = NORMALIZED_FIELDS.map (fun f => (f, v f)))
    (r : TextractResponse) :
    dfAppendRow ⟨NORMALIZED_FIELDS, rows0⟩ (new_row_dict r)
      = ⟨NORMALIZED_FIELDS,
          rows0 ++ [NORMALIZED_FIELDS.map (fun f => (f, dictLookup (summarize_textraction r) f))]⟩ := by
  unfold dfAppendRow
  have hkeys : dictKeys (new_row_dict r) = NORMALIZED_FIELDS := by
    rw [new_row_dict_eq, dictKeys_map_form]
  have hcols : concatCols NORMALIZED_FIELDS (dictKeys (new_row_dict r)) = NORMALIZED_FIELDS := by
    rw [hkeys]
    exact concatCols_self_of_subset _ _ (fun c hc => hc)
  apply dataFrame_eq
  · exact hcols
  · simp only [hcols]
    congr 1
    · have hid : ∀ row ∈ rows0,
          List.map (fun c => (c, rowLookup row c)) NORMALIZED_FIELDS = row := by
        intro row hrow
        obtain ⟨v, hv⟩ := h0 row hrow
        subst hv
        apply List.map_congr_left
        intro c hc
        rw [rowLookup_map_form _ _ _ hc]
      calc List.map (fun row => List.map (fun c => (c, rowLookup row c)) NORMALIZED_FIELDS) rows0
          = List.map (fun row => row) rows0 := List.map_congr_left hid
        _ = rows0 := List.map_id' rows0
    · congr 1
      apply List.map_congr_left
      intro c hc
      rw [new_row_dict_eq, rowLookup_map_form _ _ _ hc]

lemma compile_report_fold (rs : List TextractResponse) :
    ∀ rows0 : List (Dict (Option String)),
      (∀ row ∈ rows0, ∃ v : String → Option String,
        row = NORMALIZED_FIELDS.map (fun f => (f, v f))) →
      rs.foldl (fun report r => dfAppendRow report (new_row_dict r)) ⟨NORMALIZED_FIELDS, rows0⟩
        = ⟨NORMALIZED_FIELDS,
            rows0 ++ rs.map (fun r =>
              NORMALIZED_FIELDS.map (fun f => (f, dictLookup (summarize_textraction r) f)))⟩ := by
  induction rs with
  | nil => intro rows0 _; simp
  | cons r rest ih =>
    intro rows0 h0
    rw [List.foldl_cons, dfAppendRow_aligned rows0 h0 r]
    have h0' : ∀ row ∈ rows0
          ++ [NORMALIZED_FIELDS.map (fun f => (f, dictLookup (summarize_textraction r) f))],
        ∃ v : String → Option String, row = NORMALIZED_FIELDS.map (fun f => (f, v f)) := by
      intro row hrow
      rcases List.mem_append.mp hrow with h | h
      · exact h0 row h
      · exact ⟨fun f => dictLookup (summarize_textraction r) f, List.mem_singleton.mp h⟩
    rw [ih _ h0']
    simp

/-- Claim C6: `compile_report` produces a table whose column list is
exactly the field catalog and which has exactly one row per input
response, in input order; each row is keyed by the full catalog, holding
the summarized value of each canonical field and the absent-value marker
(`none`) for every canonical field the record lacks. -/
theorem compile_report_shape (rs : List TextractResponse) :
    compile_report rs
      = ⟨NORMALIZED_FIELDS,
          rs.map (fun r =>
            NORMALIZED_FIELDS.map (fun f => (f, dictLookup (summarize_textraction r) f)))⟩ := by
  unfold compile_report
  rw [compile_report_fold rs [] (by intro row h; cases h)]
  rfl

/-! ### Lemmas about the column pruner -/

lemma find?_filter_of_imp {α : Type} (l : List α) (p q : α → Bool)
    (h : ∀ x, p x = true → q x = true) : (l.filter q).find? p = l.find? p := by
  induction l with
  | nil => rfl
  | cons x l ih =>
    by_cases hq : q x = true
    · rw [List.filter_cons_of_pos hq]
      by_cases hp : p x = true
      · rw [List.find?_cons_of_pos _ hp, List.find?_cons_of_pos _ hp]
      · rw [List.find?_cons_of_neg _ hp, List.find?_cons_of_neg _ hp]
        exact ih
    · rw [List.filter_cons_of_neg hq]
      have hp : ¬ p x = true := fun hp => hq (h x hp)
      rw [List.find?_cons_of_neg _ hp]
      exact ih

lemma rowLookup_filter_keep (row : Dict (Option String)) (keep : List String) (c : String)
    (hc : c ∈ keep) :
    rowLookup (row.filter (fun p => decide (p.1 ∈ keep))) c = rowLookup row c := by
  unfold rowLookup dictLookup
  rw [find?_filter_of_imp]
  intro x hx
  simp only [decide_eq_true_eq] at hx ⊢
  exact hx ▸ hc

lemma prettify_cols_eq (df : DataFrame) :
    (prettify_report df).cols
      = df.cols.filter (fun c => df.rows.any (fun row => (rowLookup row c).isSome)) := rfl

lemma prettify_rows_eq (df : DataFrame) :
    (prettify_report df).rows
      = df.rows.map (fun row => row.filter (fun p => decide (p.1 ∈ (prettify_report df).cols))) := rfl

/-- Claim C7: `prettify_report` retains a column exactly when it is a
column of the input table and at least one row holds a non-absent value
for it; the number and order of the rows are unchanged, and the values of
every retained column are unchanged in every row. -/
theorem prettify_report_correct (df : DataFrame) :
    (∀ c, c ∈ (prettify_report df).cols ↔
        c ∈ df.cols ∧ ∃ row ∈ df.rows, (rowLookup row c).isSome = true) ∧
      (prettify_report df).rows.length = df.rows.length ∧
      ∀ c ∈ (prettify_report df).cols,
        (prettify_report df).rows.map (fun row => rowLookup row c)
          = df.rows.map (fun row => rowLookup row c) := by
  refine ⟨?_, ?_, ?_⟩
  · intro c
    rw [prettify_cols_eq, List.mem_filter]
    simp [List.any_eq_true]
  · rw [prettify_rows_eq, List.length_map]
  · intro c hc
    rw [prettify_rows_eq, List.map_map]
    apply List.map_congr_left
    intro row _
    simp only [Function.comp]
    exact rowLookup_filter_keep row _ c hc

/-- Witness for C7: the property instantiated at the compiled two-row
scenario table. -/
theorem prettify_report_correct_witness :
    (∀ c, c ∈ (prettify_report (compile_report [respA, respC])).cols ↔
        c ∈ (compile_report [respA, respC]).cols ∧
          ∃ row ∈ (compile_report [respA, respC]).rows, (rowLookup row c).isSome = true) ∧
      (prettify_report (compile_report [respA, respC])).rows.length
          = (compile_report [respA, respC]).rows.length ∧
      ∀ c ∈ (prettify_report (compile_report [respA, respC])).cols,
        (prettify_report (compile_report [respA, respC])).rows.map (fun row => rowLookup row c)
          = (compile_report [respA, respC]).rows.map (fun row => rowLookup row c) :=
  prettify_report_correct (compile_report [respA, respC])

/-- Claim C8: `prettify_report` is idempotent — pruning the all-absent
columns twice yields the same table as pruning them once. -/
theorem prettify_report_idempotent (df : DataFrame) :
    prettify_report (prettify_report df) = prettify_report df := by
  have hkeep : (prettify_report (prettify_report df)).cols = (prettify_report df).cols := by
    rw [prettify_cols_eq (prettify_report df)]
    apply List.filter_eq_self.mpr
    intro c hc
    have hc' := hc
    rw [prettify_cols_eq df] at hc'
    obtain ⟨hcc, hP⟩ := List.mem_filter.mp hc'
    rw [List.any_eq_true] at hP ⊢
    obtain ⟨row, hrow, hsome⟩ := hP
    refine ⟨row.filter (fun p => decide (p.1 ∈ (prettify_report df).cols)), ?_, ?_⟩
    · rw [prettify_rows_eq df]
      exact List.mem_map_of_mem _ hrow
    · rw [rowLookup_filter_keep _ _ _ hc]
      exact hsome
  have hrows : (prettify_report (prettify_report df)).rows = (prettify_report df).rows := by
    rw [prettify_rows_eq (prettify_report df), hkeep, prettify_rows_eq df, List.map_map]
    apply List.map_congr_left
    intro row _
    simp only [Function.comp]
    rw [List.filter_filter]
    apply List.filter_congr
    intro p _
    exact Bool.and_self _
  exact dataFrame_eq _ _ hkeep hrows

/-! ### Lemmas about the polling loop -/

lemma retrieve_analyses_steps_succ (env : Env) (n : Nat) (s : PollState) :
    retrieve_analyses_steps env (n + 1) s
      = retrieve_analyses_steps env n (retrieve_analyses_step env s) := rfl

lemma retrieve_analyses_steps_add (env : Env) (m n : Nat) (s : PollState) :
    retrieve_analyses_steps env (m + n) s
      = retrieve_analyses_steps env n (retrieve_analyses_steps env m s) := by
  induction m generalizing s with
  | zero => rw [Nat.zero_add]; rfl
  | succ m ih =>
    have harr : m + 1 + n = (m + n) + 1 := by omega
    rw [harr, retrieve_analyses_steps_succ, retrieve_analyses_steps_succ, ih]

lemma retrieve_analyses_steps_succ' (env : Env) (n : Nat) (s : PollState) :
    retrieve_analyses_steps env (n + 1) s
      = retrieve_analyses_step env (retrieve_analyses_steps env n s) :=
  retrieve_analyses_steps_add env n 1 s

lemma retrieve_analyses_step_concat (env : Env) (rest : List (String × Nat))
    (j : String) (k : Nat) (out : List TextractResponse) :
    retrieve_analyses_step env ⟨rest ++ [(j, k)], out⟩
      = (if statusOf env j k = "SUCCEEDED" then ⟨rest, out ++ [env j k]⟩
        else if statusOf env j k = "IN_PROGRESS" then ⟨rest ++ [(j, k + 1)], out⟩
        else if statusOf env j k = "FAILED" then ⟨rest, out⟩
        else if statusOf env j k = "PARTIAL_SUCCESS" then ⟨rest, out ++ [env j k]⟩
        else ⟨rest, out⟩) := by
  simp only [retrieve_analyses_step, List.getLast?_concat, List.dropLast_concat, statusOf]

lemma retrieve_analyses_step_terminal (env : Env) (rest : List (String × Nat))
    (j : String) (k : Nat) (out : List TextractResponse)
    (hterm : statusOf env j k ≠ "IN_PROGRESS") :
    retrieve_analyses_step env ⟨rest ++ [(j, k)], out⟩
      = ⟨rest, out ++ jobContribution env j k⟩ := by
  rw [retrieve_analyses_step_concat]
  unfold jobContribution
  by_cases h1 : statusOf env j k = "SUCCEEDED"
  · rw [if_pos h1, if_pos (Or.inl h1)]
  · rw [if_neg h1, if_neg hterm]
    by_cases h3 : statusOf env j k = "FAILED"
    · have hno : ¬ (statusOf env j k = "SUCCEEDED" ∨ statusOf env j k = "PARTIAL_SUCCESS") := by
        rintro (h | h)
        · exact h1 h
        · rw [h3] at h
          exact (by decide : ¬ ("FAILED" : String) = "PARTIAL_SUCCESS") h
      rw [if_pos h3, if_neg hno, List.append_nil]
    · rw [if_neg h3]
      by_cases h4 : statusOf env j k = "PARTIAL_SUCCESS"
      · rw [if_pos h4, if_pos (Or.inr h4)]
      · have hno : ¬ (statusOf env j k = "SUCCEEDED" ∨ statusOf env j k = "PARTIAL_SUCCESS") := by
          rintro (h | h)
          · exact h1 h
          · exact h4 h
        rw [if_neg h4, if_neg hno, List.append_nil]

lemma steps_process_one (env : Env) (j : String) (t : Nat) :
    ∀ (k : Nat) (rest : List (String × Nat)) (out : List TextractResponse),
      (∀ i, i < t → statusOf env j (k + i) = "IN_PROGRESS") →
      statusOf env j (k + t) ≠ "IN_PROGRESS" →
      retrieve_analyses_steps env (t + 1) ⟨rest ++ [(j, k)], out⟩
        = ⟨rest, out ++ jobContribution env j (k + t)⟩ := by
  induction t with
  | zero =>
    intro k rest out _ hterm
    exact retrieve_analyses_step_terminal env rest j k out hterm
  | succ t ih =>
    intro k rest out hprog hterm
    have h0 : statusOf env j k = "IN_PROGRESS" := hprog 0 (Nat.succ_pos t)
    have hstep : retrieve_analyses_step env ⟨rest ++ [(j, k)], out⟩
        = ⟨rest ++ [(j, k + 1)], out⟩ := by
      rw [retrieve_analyses_step_concat, if_neg (by rw [h0]; decide), if_pos h0]
    rw [retrieve_analyses_steps_succ, hstep]
    have hprog' : ∀ i, i < t → statusOf env j (k + 1 + i) = "IN_PROGRESS" := by
      intro i hi
      have harr : k + 1 + i = k + (i + 1) := by omega
      rw [harr]
      exact hprog (i + 1) (by omega)
    have hterm' : statusOf env j (k + 1 + t) ≠ "IN_PROGRESS" := by
      have harr : k + 1 + t = k + (t + 1) := by omega
      rw [harr]
      exact hterm
    rw [ih (k + 1) rest out hprog' hterm']
    have harr : k + 1 + t = k + (t + 1) := by omega
    rw [harr]

lemma steps_process_all (env : Env) (T : String → Nat) (l : List (String × Nat)) :
    ∀ out : List TextractResponse,
      (∀ p ∈ l, (∀ i, i < T p.1 → statusOf env p.1 (p.2 + i) = "IN_PROGRESS") ∧
        statusOf env p.1 (p.2 + T p.1) ≠ "IN_PROGRESS") →
      ∃ n, retrieve_analyses_steps env n ⟨l, out⟩
        = ⟨[], out ++ (l.reverse.map (fun p => jobContribution env p.1 (p.2 + T p.1))).flatten⟩ := by
  induction l using List.reverseRecOn with
  | nil =>
    intro out _
    exact ⟨0, by simp [retrieve_analyses_steps]⟩
  | append_singleton rest p ih =>
    intro out h
    obtain ⟨hprog, hterm⟩ := h p (List.mem_append_right _ (List.mem_singleton.mpr rfl))
    have h1 := steps_process_one env p.1 (T p.1) p.2 rest out hprog hterm
    obtain ⟨n, hn⟩ := ih (out ++ jobContribution env p.1 (p.2 + T p.1))
      (fun q hq => h q (List.mem_append_left _ hq))
    refine ⟨(T p.1 + 1) + n, ?_⟩
    rw [retrieve_analyses_steps_add, h1, hn]
    simp [List.reverse_append, List.append_assoc]

lemma terminal_complete_aux (env : Env) (jobs : List String) (T : String → Nat)
    (hT : ∀ j ∈ jobs, (∀ i, i < T j → statusOf env j i = "IN_PROGRESS") ∧
      statusOf env j (T j) ≠ "IN_PROGRESS") :
    ∃ n, retrieve_analyses_steps env n (initState jobs)
      = ⟨[], (jobs.reverse.map (fun j => jobContribution env j (T j))).flatten⟩ := by
  obtain ⟨n, hn⟩ := steps_process_all env T (jobs.map (fun j => (j, 0))) []
    (by
      intro p hp
      obtain ⟨j, hj, he⟩ := List.mem_map.mp hp
      subst he
      simpa using hT j hj)
  refine ⟨n, ?_⟩
  rw [initState, hn]
  congr 1
  rw [List.nil_append, ← List.map_reverse, List.map_map]
  congr 1
  apply List.map_congr_left
  intro j _
  simp [Function.comp, Nat.zero_add]

lemma step_preserves_stuck (env : Env) (s : PollState)
    (h : ∃ p ∈ s.pending, ∀ t, statusOf env p.1 t = "IN_PROGRESS") :
    ∃ p ∈ (retrieve_analyses_step env s).pending, ∀ t, statusOf env p.1 t = "IN_PROGRESS" := by
  obtain ⟨p, hp, hall⟩ := h
  have hne : s.pending ≠ [] := List.ne_nil_of_mem hp
  obtain ⟨rest, q, hrq⟩ := (List.eq_nil_or_concat s.pending).resolve_left hne
  rw [List.concat_eq_append] at hrq
  have hs : s = ⟨rest ++ [q], s.responses⟩ := by
    cases s
    simp_all
  rcases List.mem_append.mp (hrq ▸ hp) with hmem | hmem
  · rw [hs, retrieve_analyses_step_concat]
    split_ifs
    · exact ⟨p, hmem, hall⟩
    · exact ⟨p, List.mem_append_left _ hmem, hall⟩
    · exact ⟨p, hmem, hall⟩
    · exact ⟨p, hmem, hall⟩
    · exact ⟨p, hmem, hall⟩
  · have hpq : p = q := List.mem_singleton.mp hmem
    subst hpq
    have h0 : statusOf env p.1 p.2 = "IN_PROGRESS" := hall p.2
    rw [hs, retrieve_analyses_step_concat, if_neg (by rw [h0]; decide), if_pos h0]
    exact ⟨(p.1, p.2 + 1), List.mem_append_right _ (List.mem_singleton.mpr rfl), hall⟩

lemma stuck_pending_ne_nil (env : Env) (jobs : List String) (j : String) (hj : j ∈ jobs)
    (hstuck : ∀ t, statusOf env j t = "IN_PROGRESS") :
    ∀ n, (retrieve_analyses_steps env n (initState jobs)).pending ≠ [] := by
  have hinv : ∀ n, ∃ p ∈ (retrieve_analyses_steps env n (initState jobs)).pending,
      ∀ t, statusOf env p.1 t = "IN_PROGRESS" := by
    intro n
    induction n with
    | zero => exact ⟨(j, 0), List.mem_map_of_mem _ hj, hstuck⟩
    | succ n ihn =>
      rw [retrieve_analyses_steps_succ']
      exact step_preserves_stuck env _ ihn
  intro n hnil
  obtain ⟨p, hp, _⟩ := hinv n
  rw [hnil] at hp
  cases hp

/-- Claim C1: given per-job first-terminal poll indices `T` (every poll
before `T j` answers `IN_PROGRESS` and the poll at `T j` is terminal), the
polling loop of `retrieve_analyses` empties its pending list and its
collected `responses` are exactly the concatenation, over the jobs in
reversed list order (the order the pop-from-the-end loop processes them),
of one response per job whose terminal status is `SUCCEEDED` or
`PARTIAL_SUCCESS` and nothing per job whose terminal status is `FAILED` or
unrecognized — in particular a job that is `IN_PROGRESS` for `T j`
consecutive polls before succeeding contributes exactly one response. -/
theorem retrieve_analyses_terminal_complete (env : Env) (jobs : List String)
    (T : String → Nat)
    (hT : ∀ j ∈ jobs, (∀ i, i < T j → statusOf env j i = "IN_PROGRESS") ∧
      statusOf env j (T j) ≠ "IN_PROGRESS") :
    ∃ n, retrieve_analyses_steps env n (initState jobs)
      = ⟨[], (jobs.reverse.map (fun j => jobContribution env j (T j))).flatten⟩ :=
  terminal_complete_aux env jobs T hT

/-- Witness for C1: three jobs where "A" is `IN_PROGRESS` twice then
succeeds, "B" fails at once, and "X" reports an unknown status at once;
the loop terminates with exactly the one response of "A". -/
theorem retrieve_analyses_terminal_complete_witness :
    (∀ j ∈ ["X", "B", "A"],
        (∀ i, i < (if j = "A" then 2 else 0) → statusOf requeueEnv j i = "IN_PROGRESS") ∧
          statusOf requeueEnv j (if j = "A" then 2 else 0) ≠ "IN_PROGRESS") ∧
      ∃ n, retrieve_analyses_steps requeueEnv n (initState ["X", "B", "A"])
        = ⟨[], (["X", "B", "A"].reverse.map
            (fun j => jobContribution requeueEnv j (if j = "A" then 2 else 0))).flatten⟩ :=
  ⟨by decide,
    retrieve_analyses_terminal_complete requeueEnv ["X", "B", "A"]
      (fun j => if j = "A" then 2 else 0) (by decide)⟩

/-- Claim C2: the polling loop terminates (its pending list eventually
empties) exactly when every submitted job eventually reports a status
other than `IN_PROGRESS`; a job polling `IN_PROGRESS` forever keeps the
loop running forever, as there is no retry bound or timeout. -/
theorem retrieve_analyses_terminates_iff (env : Env) (jobs : List String) :
    (∃ n, (retrieve_analyses_steps env n (initState jobs)).pending = []) ↔
      ∀ j ∈ jobs, ∃ t, statusOf env j t ≠ "IN_PROGRESS" := by
  constructor
  · intro hterm j hj
    by_contra hno
    push_neg at hno
    obtain ⟨n, hn⟩ := hterm
    exact stuck_pending_ne_nil env jobs j hj hno n hn
  · intro hall
    classical
    set T : String → Nat :=
      fun j => if h : ∃ t, statusOf env j t ≠ "IN_PROGRESS" then Nat.find h else 0 with hTdef
    have hT : ∀ j ∈ jobs, (∀ i, i < T j → statusOf env j i = "IN_PROGRESS") ∧
        statusOf env j (T j) ≠ "IN_PROGRESS" := by
      intro j hj
      have hex := hall j hj
      have hTj : T j = Nat.find hex := by rw [hTdef]; exact dif_pos hex
      constructor
      · intro i hi
        rw [hTj] at hi
        exact not_not.mp (Nat.find_min hex hi)
      · rw [hTj]
        exact Nat.find_spec hex
    obtain ⟨n, hn⟩ := terminal_complete_aux env jobs T hT
    exact ⟨n, by rw [hn]⟩

/-- Claim C10: when every job is terminal on its very first poll, the
responses collected by the polling loop appear in the original submission
order of the surviving jobs — `start_document_analyses` reverses the job
list and the loop pops from the end, so the first-submitted job is polled
first. -/
theorem retrieve_analyses_submission_order (env : Env) (jobIdOf : String → String)
    (keys : List String)
    (h : ∀ j ∈ keys.map jobIdOf, statusOf env j 0 ≠ "IN_PROGRESS") :
    ∃ n, retrieve_analyses_steps env n (initState (start_document_analyses jobIdOf keys))
      = ⟨[], ((keys.map jobIdOf).map (fun j => jobContribution env j 0)).flatten⟩ := by
  have hT : ∀ j ∈ start_document_analyses jobIdOf keys,
      (∀ i, i < 0 → statusOf env j i = "IN_PROGRESS") ∧ statusOf env j 0 ≠ "IN_PROGRESS" := by
    intro j hj
    refine ⟨fun i hi => absurd hi (Nat.not_lt_zero i), ?_⟩
    exact h j (by rwa [start_document_analyses, List.mem_reverse] at hj)
  obtain ⟨n, hn⟩ := terminal_complete_aux env _ (fun _ => 0) hT
  refine ⟨n, ?_⟩
  rw [hn, start_document_analyses, List.reverse_reverse]

/-- Witness for C10: two jobs, both terminal at their first poll; the
collected responses follow the submission order "A" then "B". -/
theorem retrieve_analyses_submission_order_witness :
    (∀ j ∈ ["A", "B"].map (fun k => k), statusOf firstPollEnv j 0 ≠ "IN_PROGRESS") ∧
      ∃ n, retrieve_analyses_steps firstPollEnv n
          (initState (start_document_analyses (fun k => k) ["A", "B"]))
        = ⟨[], ((["A", "B"].map (fun k => k)).map
            (fun j => jobContribution firstPollEnv j 0)).flatten⟩ :=
  ⟨by decide,
    retrieve_analyses_submission_order firstPollEnv (fun k => k) ["A", "B"] (by decide)⟩

/-- Claim C9: the three-document scenario end to end — with documents
submitted in order A, B, C, the polling loop terminates with exactly the
two responses of A then C (B fails and is dropped), and compiling then
prettifying those responses yields the two-row table whose column set is
exactly VENDOR_NAME and TOTAL, where row 1 maps TOTAL to "12.50" and
VENDOR_NAME to the absent marker and row 2 maps TOTAL to "7.00" and
VENDOR_NAME to "Acme". -/
theorem scenario_end_to_end :
    retrieve_analyses_steps scenarioEnv 4
        (initState (start_document_analyses (fun k => k) ["A", "B", "C"]))
      = ⟨[], [respA, respC]⟩ ∧
      prettify_report (compile_report [respA, respC])
        = ⟨["VENDOR_NAME", "TOTAL"],
            [[("VENDOR_NAME", none), ("TOTAL", some "12.50")],
              [("VENDOR_NAME", some "Acme"), ("TOTAL", some "7.00")]]⟩ :=
  ⟨by decide, by decide⟩

end TextractStudy
